import Mathlib

/-!
Verification of the archive-validation, safe-extraction and FB2-metadata
engine of `app.py` (the single source file of this repository).  Python
strings are modelled as Lean `String` values, with the string operations the
source uses implemented over the underlying character list; the CPython
`posixpath` helpers the source calls (`normpath`, `basename`, `join`) are
translated from their reference implementations, and `os.path.realpath` is
kept as an explicit parameter (the canonicalization function of the ambient
filesystem), instantiated with `normpath` for a symlink-free filesystem.
-/

namespace UnzipFb2

/-- Python `str.lower`, modelled with ASCII case folding (every string the
source compares case-insensitively is an ASCII extension). -/
def pyLower (s : String) : String := ⟨s.data.map Char.toLower⟩

/-- Python `str.endswith`. -/
def pyEndsWith (s t : String) : Bool := t.data.isSuffixOf s.data

/-- Python `str.startswith`. -/
def pyStartsWith (s t : String) : Bool := t.data.isPrefixOf s.data

/-- Contiguous-substring test on character lists: `listInfixOf p l` holds
iff `p` occurs as a contiguous run inside `l`. -/
def listInfixOf (p : List Char) : List Char → Bool
  | [] => p.isEmpty
  | c :: cs => p.isPrefixOf (c :: cs) || listInfixOf p cs

/-- Python substring containment `t in s` for a multi-character `t`. -/
def pyContains (s t : String) : Bool := listInfixOf t.data s.data

/-- Python containment `c in s` for a single character. -/
def pyCharIn (c : Char) (s : String) : Bool := s.data.contains c

/-- Python slice `s[:n]` (first `n` code points). -/
def pyTake (s : String) (n : Nat) : String := ⟨s.data.take n⟩

/-- Python `s.split('/')` on the character list: splitting on `'/'`,
keeping empty components, so the result is always nonempty. -/
def splitSlash : List Char → List (List Char)
  | [] => [[]]
  | c :: cs =>
    let r := splitSlash cs
    if c = '/' then [] :: r
    else (c :: r.headD []) :: r.tail

/-- One step of the component loop of CPython `posixpath.normpath`:
`slashes` is the number of initial slashes kept, `acc` the components
accumulated so far, `comp` the next raw component. -/
def normStep (slashes : Nat) (acc : List (List Char)) (comp : List Char) :
    List (List Char) :=
  if comp == ([] : List Char) || comp == ['.'] then acc
  else if !(comp == ['.', '.']) || (slashes == 0 && acc.isEmpty) ||
      (!acc.isEmpty && acc.getLastD [] == ['.', '.']) then acc ++ [comp]
  else if !acc.isEmpty then acc.dropLast
  else acc

/-- CPython `posixpath.normpath`, translated from its reference
implementation: empty path maps to `"."`, one or two (but not three or
more) leading slashes are preserved, `"."` and empty components are
dropped, and `".."` pops a previous component where allowed. -/
def normpath (s : String) : String :=
  if s.data.isEmpty then "."
  else
    let slashes : Nat :=
      if pyStartsWith s "//" && !(pyStartsWith s "///") then 2
      else if pyStartsWith s "/" then 1
      else 0
    let comps := (splitSlash s.data).foldl (normStep slashes) []
    let joined := List.replicate slashes '/' ++ List.intercalate ['/'] comps
    if joined.isEmpty then "." else ⟨joined⟩

/-- CPython `posixpath.basename`: everything after the last `'/'`,
equivalently the last component of the slash-split. -/
def basename (s : String) : String := ⟨(splitSlash s.data).getLastD []⟩

/-- CPython `posixpath.join` restricted to the two-argument form the source
uses: an absolute second argument replaces the first, otherwise the two are
joined with a single `'/'` unless the first is empty or already ends in
`'/'`. -/
def pyJoin (a b : String) : String :=
  if pyStartsWith b "/" then b
  else if a == "" || pyEndsWith a "/" then a ++ b
  else a ++ "/" ++ b

/-! Archive model and configuration constants (`app.py` lines 35-38). -/

/-- Configured maximum payload size, `32 * 1024 * 1024` bytes. -/
def ALLOWED_FILE_SIZE : Nat := 32 * 1024 * 1024

/-- Maximum allowed ratio between unpacked size and compressed size. -/
def MAX_ZIP_RATIO : Nat := 100

/-- Directory metadata of one zip member, the fields of
`zipfile.ZipInfo` the source reads: the declared name, the declared
uncompressed size and the declared compressed size. -/
structure ZipInfo where
  filename : String
  file_size : Nat
  compress_size : Nat
deriving DecidableEq

/-- One zip member together with the byte stream its compressed data
actually decompresses to (which an attacker controls independently of the
declared `file_size`). -/
structure ZipEntry where
  info : ZipInfo
  decompressed : List Nat
deriving DecidableEq

/-! The `SecurityError` messages `process_archive` and `safe_extract` can
raise (`app.py` lines 185, 189, 195, 203, 208, 212, 250). -/

/-- Message of the entry-count check. -/
def wrongCountMsg : String :=
  "The archive must contain exactly one .fb2 file. Processing stopped."

/-- Message of the extension check. -/
def wrongTypeMsg : String :=
  "The file in the archive must have .fb2 extension. Other formats are not supported."

/-- Message of the separator-character name check. -/
def unsafeNameMsg1 : String :=
  "The archive must contain a single file at the root level (no folders)."

/-- Message of the absolute-path / up-level / normalization name check. -/
def unsafeNameMsg2 : String :=
  "The archive must contain a single file at the root (no folders)."

/-- Message of the compression-ratio check. -/
def ratioMsg : String :=
  "Suspicious compression ratio. Processing stopped for security reasons."

/-- Message of the declared-uncompressed-size check. -/
def tooLargeMsg : String :=
  "Unpacked file size exceeds the allowed limit."

/-- Message of the containment check in `safe_extract`. -/
def zipSlipMsg : String := "Potential Zip Slip attack detected."

/-- Modelled from the spec: the closed failure taxonomy of §7.  The source
raises `SecurityError` with a message string; each message corresponds to
one classification, and `decompressionMismatch` is the classification the
spec reserves for the runtime actual-vs-declared size guard. -/
inductive FailureClass where
  | malformedArchive
  | wrongEntryCount
  | wrongFileType
  | unsafeEntryName
  | suspiciousCompressionRatio
  | payloadTooLarge
  | pathEscape
  | decompressionMismatch
deriving DecidableEq, BEq

/-- Modelled from the spec: maps each `SecurityError` message of the source
to its §7 classification (any other string arises only from the
`BadZipFile` handler, hence `malformedArchive`). -/
def classify (m : String) : FailureClass :=
  if m == wrongCountMsg then .wrongEntryCount
  else if m == wrongTypeMsg then .wrongFileType
  else if m == unsafeNameMsg1 || m == unsafeNameMsg2 then .unsafeEntryName
  else if m == ratioMsg then .suspiciousCompressionRatio
  else if m == tooLargeMsg then .payloadTooLarge
  else if m == zipSlipMsg then .pathEscape
  else .malformedArchive

/-- Validation portion of `process_archive` (`app.py` lines 178-212),
checks in source order over the archive's directory listing: entry count,
extension (case-insensitive), the two name-safety checks, the
compression-ratio check, and the unpacked-size check.

The source's ratio test `file_size / compress_size > MAX_ZIP_RATIO` uses
Python float (binary64) division of two nonnegative integers, which
CPython computes correctly rounded (round half to even).  Rounding is
monotone; the binary64 successor of 100 is `100 + 2^-46` (100 lies in
`[2^6, 2^7)`, so its ulp is `2^(6-52)`), and the midpoint `100 + 2^-47`
between them ties to even, i.e. down to 100, because the 53-bit
significand of 100 is `100 * 2^46 = 25 * 2^48`, which is even.  Hence the
float test holds iff the exact rational quotient strictly exceeds
`100 + 2^-47`, i.e. iff
`(2^47 * MAX_ZIP_RATIO + 1) * compress_size < 2^47 * file_size` — the
exact integer test used below.  (No quotient of two 64-bit zip fields can
overflow or denormalize a binary64.) -/
def validate_archive : List ZipInfo → Except String ZipInfo
  | [item] =>
    if !(pyEndsWith (pyLower item.filename) ".fb2") then .error wrongTypeMsg
    else if pyCharIn '/' item.filename || pyCharIn '\\' item.filename then
      .error unsafeNameMsg1
    else if pyStartsWith item.filename "/" || pyContains item.filename ".." ||
        !(normpath item.filename == basename item.filename) then
      .error unsafeNameMsg2
    else if 0 < item.compress_size ∧
        (2 ^ 47 * MAX_ZIP_RATIO + 1) * item.compress_size <
          2 ^ 47 * item.file_size then
      .error ratioMsg
    else if ALLOWED_FILE_SIZE < item.file_size then .error tooLargeMsg
    else .ok item
  | _ => .error wrongCountMsg

/-- The containment loop of `safe_extract` (`app.py` lines 246-250): for
each member, canonicalize `os.path.join(path, member.filename)` with the
filesystem's `realpath` (the parameter `realp`) and require the result to
start (as a string) with the canonicalized root; the first violation
raises the zip-slip `SecurityError`.  The loop runs to completion before
`extractall` writes anything. -/
def safe_extract_check (realp : String → String) (path : String) :
    List ZipInfo → Except String Unit
  | [] => .ok ()
  | m :: ms =>
    if !(pyStartsWith (realp (pyJoin path m.filename)) (realp path)) then
      .error zipSlipMsg
    else safe_extract_check realp path ms

/-- Result of a completed extraction: the output path computed at
`app.py` line 225 and the written bytes. -/
structure ExtractedFile where
  path : String
  bytes : List Nat
deriving DecidableEq

/-- Bytes `extractall` writes for one member: CPython's `ZipExtFile`
truncates the decompressed stream at the declared `file_size`, and at no
point compares the actual decompressed byte count against the declared
size in a way that aborts extraction. -/
def writtenBytes (e : ZipEntry) : List Nat := e.decompressed.take e.info.file_size

/-- The archive-processing pipeline of `process_archive` (`app.py` lines
173-225): validate the directory listing, run the `safe_extract`
containment loop, then extract, producing the path
`os.path.join(extract_path, actual_files[0].filename)` and the written
bytes.  Errors short-circuit: a validation failure is returned before the
extraction step is ever invoked. -/
def process_archive (realp : String → String) (extract_path : String)
    (entries : List ZipEntry) : Except String ExtractedFile :=
  match validate_archive (entries.map (fun e => e.info)) with
  | .error m => .error m
  | .ok item =>
    match safe_extract_check realp extract_path (entries.map (fun e => e.info)) with
    | .error m => .error m
    | .ok _ =>
      .ok ⟨pyJoin extract_path item.filename,
           (entries.map writtenBytes).headD []⟩

/-- Whether a validation result is a failure carrying the
`UnsafeEntryName` classification. -/
def isUnsafeErr (r : Except String ZipInfo) : Bool :=
  match r with
  | .error m => classify m == .unsafeEntryName
  | .ok _ => false

/-- Whether an `Except` result is a success. -/
def exceptIsOk {ε α : Type} (r : Except ε α) : Bool :=
  match r with
  | .ok _ => true
  | .error _ => false

/-- Modelled from the spec: "equal to or nested under" — `p` is the root
itself or a path-component descendant of it (the root followed by a
separator). -/
def pathUnder (root p : String) : Bool :=
  p == root || (root ++ "/").data.isPrefixOf p.data

/-! FB2 metadata extraction (`app.py` lines 253-294).  The lxml parse
itself is an external library call; its outcome is modelled as an
arbitrary `Except` value (a parsed element tree, or a parse error), and
the document-order lookups the source performs on the tree are modelled
below. -/

mutual

/-- A parsed XML element: namespace, local tag, text content (`None` when
absent), and the forest of child elements in document order. -/
inductive XElem where
  | node (ns tag : String) (text : Option String) (children : XForest) : XElem

/-- A sequence of sibling XML elements in document order. -/
inductive XForest where
  | nil : XForest
  | cons (e : XElem) (f : XForest) : XForest

end

/-- Namespace of an element. -/
def XElem.ns : XElem → String
  | .node n _ _ _ => n

/-- Local tag of an element. -/
def XElem.tag : XElem → String
  | .node _ t _ _ => t

/-- Text content of an element. -/
def XElem.text : XElem → Option String
  | .node _ _ x _ => x

/-- Child elements of an element. -/
def XElem.children : XElem → XForest
  | .node _ _ _ c => c

mutual

/-- An element followed by all its strict descendants, flattened in
document order. -/
def descE : XElem → List XElem
  | .node n t x c => .node n t x c :: descF c

/-- All elements of a forest and all their nested descendants, flattened
in document order. -/
def descF : XForest → List XElem
  | .nil => []
  | .cons e f => descE e ++ descF f

end

mutual

/-- Search one element: the element itself if its namespace and tag match,
otherwise the first match among its descendants in document order. -/
def findE (ns tag : String) : XElem → Option XElem
  | .node n t x c =>
    if n == ns && t == tag then some (.node n t x c)
    else findF ns tag c

/-- Modelled from the spec: lxml `find` with an ElementPath pattern
`.//{ns}tag` applied to a forest (the lxml library is not part of
`src/`): depth-first, document-order search through the elements and all
nested children, returning the first element whose namespace and tag
match. -/
def findF (ns tag : String) : XForest → Option XElem
  | .nil => none
  | .cons e f =>
    match findE ns tag e with
    | some r => some r
    | none => findF ns tag f

end

/-- Modelled from the spec: lxml `findtext` with an `.//` pattern under a
given element — `None` when no element matches, otherwise the matching
element's text, with absent text reported as the empty string. -/
def findtextDesc (ns tag : String) (e : XElem) : Option String :=
  match findF ns tag e.children with
  | some el => some (el.text.getD "")
  | none => none

/-- Python truthiness of an optional string: `None` and `""` are falsy. -/
def truthy : Option String → Bool
  | none => false
  | some s => !(s == "")

/-- The metadata record the extractor produces (`title`/`author`, both
optional). -/
structure BookMetadata where
  title : Option String
  author : Option String
deriving DecidableEq

/-- The defensive parser configuration built at `app.py` lines 259-264. -/
structure XMLParserConfig where
  recover : Bool
  resolve_entities : Bool
  no_network : Bool
  huge_tree : Bool
deriving DecidableEq

/-- The configuration values the source passes to `etree.XMLParser`. -/
def fb2ParserConfig : XMLParserConfig :=
  { recover := true, resolve_entities := false, no_network := true,
    huge_tree := false }

/-- The FB2 namespace bound to the `fb` pattern at `app.py` line 273. -/
def fbNS : String := "http://www.gribuser.ru/xml/fictionbook/2.0"

/-- `extract_fb2_metadata` (`app.py` lines 253-294) on the payload's size
and parse outcome: oversized payloads skip parsing; any parse error is
caught and degrades to empty metadata; otherwise the title is the text of
the first `book-title` descendant (when truthy), sliced to 255 code
points, and the author is composed from the first `first-name` and
`last-name` descendants of the first `author` descendant. -/
def extract_fb2_metadata (size : Nat) (parsed : Except String XElem) :
    BookMetadata :=
  if ALLOWED_FILE_SIZE < size then ⟨none, none⟩
  else
    match parsed with
    | .error _ => ⟨none, none⟩
    | .ok root =>
      let title :=
        match findF fbNS "book-title" root.children with
        | some e => if truthy e.text then some (pyTake (e.text.getD "") 255) else none
        | none => none
      let author :=
        match findF fbNS "author" root.children with
        | some a =>
          let fn := findtextDesc fbNS "first-name" a
          let ln := findtextDesc fbNS "last-name" a
          if truthy fn && truthy ln then
            some (fn.getD "" ++ " " ++ ln.getD "")
          else if truthy ln then ln
          else if truthy fn then fn
          else none
        | none => none
      ⟨title, author⟩

/-! Helper lemmas about the string primitives. -/

theorem mem_of_isPrefixOf {c : Char} {p l : List Char}
    (h : p.isPrefixOf l = true) (hc : c ∈ p) : c ∈ l := by
  have hp := List.isPrefixOf_iff_prefix.mp h
  exact hp.subset hc

theorem mem_of_listInfixOf {c : Char} {p : List Char} :
    ∀ {l : List Char}, listInfixOf p l = true → c ∈ p → c ∈ l
  | [], h, hc => by
      simp only [listInfixOf, List.isEmpty_iff] at h
      subst h
      cases hc
  | x :: xs, h, hc => by
      simp only [listInfixOf, Bool.or_eq_true] at h
      rcases h with h | h
      · exact mem_of_isPrefixOf h hc
      · exact List.mem_cons_of_mem x (mem_of_listInfixOf h hc)

theorem pyCharIn_iff {c : Char} {s : String} :
    pyCharIn c s = true ↔ c ∈ s.data := by
  simp only [pyCharIn]
  exact List.elem_iff

theorem not_mem_of_pyCharIn_eq_false {c : Char} {s : String}
    (h : pyCharIn c s = false) : c ∉ s.data := by
  intro hm
  rw [pyCharIn_iff.mpr hm] at h
  cases h

theorem slash_mem_of_pyStartsWith_root {s : String}
    (h : pyStartsWith s "/" = true) : '/' ∈ s.data := by
  simp only [pyStartsWith] at h
  exact mem_of_isPrefixOf h (by decide)

theorem slash_mem_of_pyStartsWith_root2 {s : String}
    (h : pyStartsWith s "//" = true) : '/' ∈ s.data := by
  simp only [pyStartsWith] at h
  exact mem_of_isPrefixOf h (by decide)

theorem slash_mem_of_pyContains_updir {s : String}
    (h : pyContains s "../" = true) : '/' ∈ s.data := by
  simp only [pyContains] at h
  exact mem_of_listInfixOf h (by decide)

theorem length_le_of_pyEndsWith {s t : String} (h : pyEndsWith s t = true) :
    t.data.length ≤ s.data.length :=
  (List.isSuffixOf_iff_suffix.mp h).length_le

theorem four_le_length_of_fb2_ext {s : String}
    (h : pyEndsWith (pyLower s) ".fb2" = true) : 4 ≤ s.data.length := by
  have hl := length_le_of_pyEndsWith h
  simpa [pyLower] using hl

theorem splitSlash_eq_of_no_slash :
    ∀ {l : List Char}, '/' ∉ l → splitSlash l = [l]
  | [], _ => rfl
  | c :: cs, h => by
      have hc : ¬ c = '/' := fun e => h (e ▸ List.mem_cons_self c cs)
      have ih := splitSlash_eq_of_no_slash (fun m => h (List.mem_cons_of_mem c m))
      simp [splitSlash, hc, ih]

theorem normpath_eq_of_bare {s : String} (hslash : '/' ∉ s.data)
    (hlen : 4 ≤ s.data.length) : normpath s = s := by
  obtain ⟨d⟩ := s
  have hne : d ≠ [] := by
    intro e
    rw [e] at hlen
    exact absurd hlen (by decide)
  have hdot : (d == ['.']) = false := by
    refine beq_eq_false_iff_ne.mpr fun e => ?_
    rw [e] at hlen
    exact absurd hlen (by decide)
  have hddot : (d == ['.', '.']) = false := by
    refine beq_eq_false_iff_ne.mpr fun e => ?_
    rw [e] at hlen
    exact absurd hlen (by decide)
  have hnil : (d == ([] : List Char)) = false := beq_eq_false_iff_ne.mpr hne
  have h1 : pyStartsWith ⟨d⟩ "/" = false := by
    cases hps : pyStartsWith ⟨d⟩ "/" with
    | false => rfl
    | true => exact absurd (slash_mem_of_pyStartsWith_root hps) hslash
  have h2 : pyStartsWith ⟨d⟩ "//" = false := by
    cases hps : pyStartsWith ⟨d⟩ "//" with
    | false => rfl
    | true => exact absurd (slash_mem_of_pyStartsWith_root2 hps) hslash
  rw [normpath]
  simp only [String.data]
  rw [if_neg (by simp [List.isEmpty_iff, hne])]
  rw [splitSlash_eq_of_no_slash hslash]
  simp only [h1, h2, Bool.false_and]
  simp only [List.foldl, normStep, hnil, hdot, hddot, Bool.or_self,
    Bool.false_or, Bool.not_false, Bool.true_or]
  simp [List.intercalate, List.intersperse, List.isEmpty_iff, hne]

theorem basename_eq_of_bare {s : String} (hslash : '/' ∉ s.data) :
    basename s = s := by
  obtain ⟨d⟩ := s
  rw [basename]
  simp only [String.data]
  rw [splitSlash_eq_of_no_slash hslash]
  rfl

theorem isPrefixOf_self_append :
    ∀ (l r : List Char), l.isPrefixOf (l ++ r) = true := by
  intro l r
  have hp := List.prefix_append l r
  exact List.isPrefixOf_iff_prefix.mpr hp

/-! Characterization lemmas for the validator and the extractor. -/

theorem validate_archive_singleton (item : ZipInfo)
    (hext : pyEndsWith (pyLower item.filename) ".fb2" = true)
    (hs : pyCharIn '/' item.filename = false)
    (hb : pyCharIn '\\' item.filename = false)
    (hdd : pyContains item.filename ".." = false) :
    validate_archive [item] =
      if 0 < item.compress_size ∧
          (2 ^ 47 * MAX_ZIP_RATIO + 1) * item.compress_size <
            2 ^ 47 * item.file_size then .error ratioMsg
      else if ALLOWED_FILE_SIZE < item.file_size then .error tooLargeMsg
      else .ok item := by
  have hslash := not_mem_of_pyCharIn_eq_false hs
  have hlen := four_le_length_of_fb2_ext hext
  have h1 : pyStartsWith item.filename "/" = false := by
    cases hps : pyStartsWith item.filename "/" with
    | false => rfl
    | true => exact absurd (slash_mem_of_pyStartsWith_root hps) hslash
  have hnb : (normpath item.filename == basename item.filename) = true := by
    rw [normpath_eq_of_bare hslash hlen, basename_eq_of_bare hslash]
    exact beq_self_eq_true _
  simp [validate_archive, hext, hs, hb, h1, hdd, hnb]

theorem validate_archive_error_messages (infos : List ZipInfo) (m : String)
    (h : validate_archive infos = .error m) :
    m = wrongCountMsg ∨ m = wrongTypeMsg ∨ m = unsafeNameMsg1 ∨
    m = unsafeNameMsg2 ∨ m = ratioMsg ∨ m = tooLargeMsg := by
  cases infos with
  | nil => exact Or.inl (Except.error.inj h).symm
  | cons x xs =>
    cases xs with
    | cons y ys => exact Or.inl (Except.error.inj h).symm
    | nil =>
      simp only [validate_archive] at h
      split at h
      · exact Or.inr (Or.inl (Except.error.inj h).symm)
      · split at h
        · exact Or.inr (Or.inr (Or.inl (Except.error.inj h).symm))
        · split at h
          · exact Or.inr (Or.inr (Or.inr (Or.inl (Except.error.inj h).symm)))
          · split at h
            · exact Or.inr (Or.inr (Or.inr (Or.inr (Or.inl
                (Except.error.inj h).symm))))
            · split at h
              · exact Or.inr (Or.inr (Or.inr (Or.inr (Or.inr
                  (Except.error.inj h).symm))))
              · exact absurd h (by simp)

theorem safe_extract_check_error (realp : String → String) (path : String) :
    ∀ (members : List ZipInfo) (m : String),
      safe_extract_check realp path members = .error m → m = zipSlipMsg
  | [], m, h => by simp [safe_extract_check] at h
  | mem :: ms, m, h => by
      simp only [safe_extract_check] at h
      split at h
      · exact (Except.error.inj h).symm
      · exact safe_extract_check_error realp path ms m h

theorem safe_extract_check_ok_iff (realp : String → String) (path : String) :
    ∀ members : List ZipInfo,
      safe_extract_check realp path members = .ok () ↔
        ∀ m ∈ members,
          pyStartsWith (realp (pyJoin path m.filename)) (realp path) = true
  | [] => by simp [safe_extract_check]
  | mem :: ms => by
      rw [List.forall_mem_cons]
      cases hcond : pyStartsWith (realp (pyJoin path mem.filename)) (realp path) with
      | false => simp [safe_extract_check, hcond]
      | true => simp [safe_extract_check, hcond,
          safe_extract_check_ok_iff realp path ms]

mutual

theorem findE_eq_find? (ns tag : String) :
    ∀ e : XElem, findE ns tag e =
      (descE e).find? (fun x => x.ns == ns && x.tag == tag)
  | .node n t x c => by
      have ihc := findF_eq_find? ns tag c
      simp only [findE, descE]
      cases hcond : (n == ns && t == tag) with
      | true =>
        have hp : ((fun x => x.ns == ns && x.tag == tag) (XElem.node n t x c)) = true := by
          simpa [XElem.ns, XElem.tag] using hcond
        rw [@List.find?_cons_of_pos XElem (fun x => x.ns == ns && x.tag == tag)
          (XElem.node n t x c) (descF c) hp]
        simp [hcond]
      | false =>
        have hp : ¬ ((fun x => x.ns == ns && x.tag == tag) (XElem.node n t x c)) = true := by
          simp [XElem.ns, XElem.tag, hcond]
        rw [@List.find?_cons_of_neg XElem (fun x => x.ns == ns && x.tag == tag)
          (XElem.node n t x c) (descF c) hp, ← ihc]
        simp [hcond]

theorem findF_eq_find? (ns tag : String) :
    ∀ f : XForest, findF ns tag f =
      (descF f).find? (fun x => x.ns == ns && x.tag == tag)
  | .nil => by simp [findF, descF]
  | .cons e f => by
      have ihe := findE_eq_find? ns tag e
      have ihf := findF_eq_find? ns tag f
      simp only [findF, descF]
      rw [List.find?_append, ← ihe, ← ihf]
      cases hfe : findE ns tag e <;> simp [Option.or]

end

/-! Claim theorems. -/

/-- C3: for every archive whose entry count differs from 1 — zero entries,
or two or more entries of any kind — validation fails with the
`WrongEntryCount` classification before any later check, and the
extraction step is never invoked: the whole pipeline returns that same
failure, regardless of the entries' names, extensions or sizes. -/
theorem validator_wrong_entry_count (realp : String → String) (path : String)
    (entries : List ZipEntry) (h : entries.length ≠ 1) :
    validate_archive (entries.map (fun e => e.info)) = .error wrongCountMsg ∧
    classify wrongCountMsg = .wrongEntryCount ∧
    process_archive realp path entries = .error wrongCountMsg := by
  have hv : validate_archive (entries.map (fun e => e.info)) = .error wrongCountMsg := by
    cases entries with
    | nil => rfl
    | cons x xs =>
      cases xs with
      | nil => exact absurd rfl h
      | cons y ys => rfl
  refine ⟨hv, by decide, ?_⟩
  rw [process_archive, hv]

/-- C3 witness: the empty archive is rejected with `WrongEntryCount` and
the pipeline never extracts. -/
theorem validator_wrong_entry_count_witness :
    validate_archive (([] : List ZipEntry).map (fun e => e.info)) =
      .error wrongCountMsg ∧
    classify wrongCountMsg = .wrongEntryCount ∧
    process_archive normpath "/tmp/extract" [] = .error wrongCountMsg :=
  validator_wrong_entry_count normpath "/tmp/extract" [] (by decide)

/-- C4: a single-entry archive with the expected `.fb2` extension whose
entry name contains the substring `../`, begins with `/`, or contains a
backslash is rejected by the first name-safety check, whose message
carries the `UnsafeEntryName` classification. -/
theorem validator_unsafe_entry_name_rejects (item : ZipInfo)
    (hext : pyEndsWith (pyLower item.filename) ".fb2" = true)
    (hbad : pyContains item.filename "../" = true ∨
            pyStartsWith item.filename "/" = true ∨
            pyCharIn '\\' item.filename = true) :
    validate_archive [item] = .error unsafeNameMsg1 ∧
    classify unsafeNameMsg1 = .unsafeEntryName ∧
    isUnsafeErr (validate_archive [item]) = true := by
  have hsep : (pyCharIn '/' item.filename || pyCharIn '\\' item.filename) = true := by
    rcases hbad with h | h | h
    · exact Bool.or_eq_true_iff.mpr (Or.inl
        (pyCharIn_iff.mpr (slash_mem_of_pyContains_updir h)))
    · exact Bool.or_eq_true_iff.mpr (Or.inl
        (pyCharIn_iff.mpr (slash_mem_of_pyStartsWith_root h)))
    · exact Bool.or_eq_true_iff.mpr (Or.inr h)
  have hv : validate_archive [item] = .error unsafeNameMsg1 := by
    simp [validate_archive, hext, hsep]
  exact ⟨hv, by decide, by rw [hv]; decide⟩

/-- C4 witness: the entry name `../x.fb2` is rejected as
`UnsafeEntryName`. -/
theorem validator_unsafe_entry_name_rejects_witness :
    validate_archive [⟨"../x.fb2", 1, 1⟩] = .error unsafeNameMsg1 ∧
    classify unsafeNameMsg1 = .unsafeEntryName ∧
    isUnsafeErr (validate_archive [⟨"../x.fb2", 1, 1⟩]) = true :=
  validator_unsafe_entry_name_rejects ⟨"../x.fb2", 1, 1⟩ (by decide)
    (Or.inl (by decide))

/-- C5 counterexample: the entry name `my..book.fb2` satisfies all four
name-safety conditions of the claim — no path separator, no leading `/`,
no parent-directory segment among its slash-split components, and it
equals its own normalized base form — and carries the expected extension,
yet the validator rejects it with the `UnsafeEntryName` classification,
because the source tests `'..' in inner_path`, a substring test, not a
path-segment test. -/
theorem validator_rejects_benign_dotdot_name_cex :
    pyCharIn '/' "my..book.fb2" = false ∧
    pyCharIn '\\' "my..book.fb2" = false ∧
    pyStartsWith "my..book.fb2" "/" = false ∧
    (splitSlash "my..book.fb2".data).contains ['.', '.'] = false ∧
    normpath "my..book.fb2" = basename "my..book.fb2" ∧
    pyEndsWith (pyLower "my..book.fb2") ".fb2" = true ∧
    validate_archive [⟨"my..book.fb2", 10, 10⟩] = .error unsafeNameMsg2 ∧
    classify unsafeNameMsg2 = .unsafeEntryName :=
  ⟨by decide, by decide, by decide, by decide, by decide, by decide,
   by rfl, by decide⟩

/-- C5 amended: a single-entry archive with the expected extension whose
entry name contains no forward or back slash and — stronger than the
claim's four conditions — no occurrence of `..` as a substring anywhere,
is not rejected with the `UnsafeEntryName` classification (it proceeds to
the ratio and size checks). -/
theorem validator_accepts_safe_names_without_dotdot (item : ZipInfo)
    (hext : pyEndsWith (pyLower item.filename) ".fb2" = true)
    (hs : pyCharIn '/' item.filename = false)
    (hb : pyCharIn '\\' item.filename = false)
    (hdd : pyContains item.filename ".." = false) :
    isUnsafeErr (validate_archive [item]) = false := by
  rw [validate_archive_singleton item hext hs hb hdd]
  split
  · decide
  · split
    · decide
    · rfl

/-- C5 amended witness: the bare name `book.fb2` passes the name-safety
checks. -/
theorem validator_accepts_safe_names_without_dotdot_witness :
    isUnsafeErr (validate_archive [⟨"book.fb2", 10, 10⟩]) = false :=
  validator_accepts_safe_names_without_dotdot ⟨"book.fb2", 10, 10⟩
    (by decide) (by decide) (by decide) (by decide)

/-- C6 counterexample: with declared uncompressed size `10^17 + 1` and
declared compressed size `10^15` (both zip64-representable directory
fields of an entry passing every earlier check), the declared uncompressed
size divided by the declared compressed size strictly exceeds the
threshold as exact rationals — `100 * 10^15 < 10^17 + 1` — yet Python's
binary64 division evaluates to exactly `100.0`, so the source's
`> MAX_ZIP_RATIO` test does not fire and validation instead fails with the
size-limit error, classified `PayloadTooLarge`, not
`SuspiciousCompressionRatio`. -/
theorem validator_ratio_float_boundary_cex :
    MAX_ZIP_RATIO * 10 ^ 15 < 10 ^ 17 + 1 ∧
    validate_archive [⟨"a.fb2", 10 ^ 17 + 1, 10 ^ 15⟩] = .error tooLargeMsg ∧
    validate_archive [⟨"a.fb2", 10 ^ 17 + 1, 10 ^ 15⟩] ≠ .error ratioMsg ∧
    classify tooLargeMsg = .payloadTooLarge := by
  refine ⟨by decide, by rfl, ?_, by decide⟩
  intro h
  rw [show validate_archive [⟨"a.fb2", 10 ^ 17 + 1, 10 ^ 15⟩] =
    .error tooLargeMsg from rfl] at h
  exact absurd (Except.error.inj h) (by decide)

/-- C6 amended: for a single entry that passes the earlier checks
(expected extension, no separators, no `..` occurrence), validation fails
with the `SuspiciousCompressionRatio` classification exactly when the
declared compressed size is positive and the binary64 value Python
computes for `file_size / compress_size` strictly exceeds the threshold —
equivalently, when the exact quotient exceeds `100 + 2^-47`, i.e.
`(2^47 * MAX_ZIP_RATIO + 1) * compress_size < 2^47 * file_size` — still
regardless of how small the declared uncompressed size is; when the
rounded quotient is the threshold or below, the ratio failure cannot
occur; and when the declared compressed size is zero the ratio check is
skipped entirely: the result is the size check's verdict, never the ratio
failure. -/
theorem validator_compression_ratio_check (item : ZipInfo)
    (hext : pyEndsWith (pyLower item.filename) ".fb2" = true)
    (hs : pyCharIn '/' item.filename = false)
    (hb : pyCharIn '\\' item.filename = false)
    (hdd : pyContains item.filename ".." = false) :
    (0 < item.compress_size →
      (2 ^ 47 * MAX_ZIP_RATIO + 1) * item.compress_size <
        2 ^ 47 * item.file_size →
      validate_archive [item] = .error ratioMsg ∧
      classify ratioMsg = .suspiciousCompressionRatio) ∧
    (¬ (2 ^ 47 * MAX_ZIP_RATIO + 1) * item.compress_size <
        2 ^ 47 * item.file_size →
      validate_archive [item] ≠ .error ratioMsg) ∧
    (item.compress_size = 0 →
      validate_archive [item] = .error tooLargeMsg ∨
      validate_archive [item] = .ok item) := by
  rw [validate_archive_singleton item hext hs hb hdd]
  refine ⟨?_, ?_, ?_⟩
  · intro hc hr
    rw [if_pos ⟨hc, hr⟩]
    exact ⟨rfl, by decide⟩
  · intro hr
    rw [if_neg (fun hand => hr hand.2)]
    split
    · intro h
      exact absurd (Except.error.inj h) (by decide)
    · exact fun h => Except.noConfusion h
  · intro hc
    rw [if_neg (by rw [hc]; rintro ⟨h0, _⟩; exact absurd h0 (by decide))]
    split
    · exact Or.inl rfl
    · exact Or.inr rfl

/-- C6 witness: declared sizes 101/1 trip the ratio check even though the
uncompressed size is tiny; at the float boundary `(10^17 + 1) / 10^15` the
ratio failure cannot occur; and compressed size 0 skips the ratio
check. -/
theorem validator_compression_ratio_check_witness :
    (validate_archive [⟨"a.fb2", 101, 1⟩] = .error ratioMsg ∧
     classify ratioMsg = .suspiciousCompressionRatio) ∧
    validate_archive [⟨"a.fb2", 10 ^ 17 + 1, 10 ^ 15⟩] ≠ .error ratioMsg ∧
    (validate_archive [⟨"a.fb2", 5, 0⟩] = .error tooLargeMsg ∨
     validate_archive [⟨"a.fb2", 5, 0⟩] = .ok ⟨"a.fb2", 5, 0⟩) :=
  ⟨(validator_compression_ratio_check ⟨"a.fb2", 101, 1⟩
      (by decide) (by decide) (by decide) (by decide)).1
    (by decide) (by decide),
   (validator_compression_ratio_check ⟨"a.fb2", 10 ^ 17 + 1, 10 ^ 15⟩
      (by decide) (by decide) (by decide) (by decide)).2.1 (by decide),
   (validator_compression_ratio_check ⟨"a.fb2", 5, 0⟩
      (by decide) (by decide) (by decide) (by decide)).2.2 rfl⟩

/-- C2 counterexample: on a symlink-free filesystem (canonicalization =
`normpath`) with destination root `/tmp/extract`, the member name
`../extract_evil.fb2` canonicalizes to `/tmp/extract_evil.fb2` — outside
the root, neither equal to it nor a descendant of it — yet the
`safe_extract` containment loop raises no error, because the source's
`startswith` test is a raw string-prefix comparison without a trailing
separator; so a candidate that resolves outside the root does not cause a
`PathEscape` failure. -/
theorem safe_extract_sibling_escape_cex :
    safe_extract_check normpath "/tmp/extract"
      [⟨"../extract_evil.fb2", 1, 1⟩] = .ok () ∧
    normpath (pyJoin "/tmp/extract" "../extract_evil.fb2") =
      "/tmp/extract_evil.fb2" ∧
    pathUnder "/tmp/extract"
      (normpath (pyJoin "/tmp/extract" "../extract_evil.fb2")) = false :=
  ⟨by rfl, by rfl, by decide⟩

/-- C2 amended: the containment guarantee the extractor actually enforces
is a string-prefix one: the `safe_extract` loop succeeds exactly when every
member's canonicalized candidate path starts (as a string, with no
separator appended) with the canonicalized destination root, any violation
raises the zip-slip `SecurityError` (the `PathEscape` classification)
before `extractall` writes anything, and the loop has no other outcome.
String-prefix containment is weaker than "equal to or a descendant of the
root": sibling paths sharing the root as a string prefix pass. -/
theorem safe_extract_startswith_containment (realp : String → String)
    (path : String) (members : List ZipInfo) :
    (safe_extract_check realp path members = .ok () ↔
      ∀ m ∈ members,
        pyStartsWith (realp (pyJoin path m.filename)) (realp path) = true) ∧
    (safe_extract_check realp path members = .ok () ∨
      safe_extract_check realp path members = .error zipSlipMsg) ∧
    classify zipSlipMsg = .pathEscape := by
  refine ⟨safe_extract_check_ok_iff realp path members, ?_, by decide⟩
  cases hr : safe_extract_check realp path members with
  | ok u =>
    cases u
    exact Or.inl rfl
  | error m =>
    have hm := safe_extract_check_error realp path members m hr
    subst hm
    exact Or.inr rfl

/-- C2 amended witness: instantiated on the symlink-free filesystem with a
singleton member list. -/
theorem safe_extract_startswith_containment_witness :
    (safe_extract_check normpath "/tmp/extract" [⟨"book.fb2", 1, 1⟩] = .ok () ↔
      ∀ m ∈ [(⟨"book.fb2", 1, 1⟩ : ZipInfo)],
        pyStartsWith (normpath (pyJoin "/tmp/extract" m.filename))
          (normpath "/tmp/extract") = true) ∧
    (safe_extract_check normpath "/tmp/extract" [⟨"book.fb2", 1, 1⟩] = .ok () ∨
      safe_extract_check normpath "/tmp/extract" [⟨"book.fb2", 1, 1⟩] =
        .error zipSlipMsg) ∧
    classify zipSlipMsg = .pathEscape :=
  safe_extract_startswith_containment normpath "/tmp/extract"
    [⟨"book.fb2", 1, 1⟩]

/-- C10: for a member whose name passed the validator's name-safety check
(no forward slash, no backslash), under the canonicalization law that
holds for a fresh, empty extraction root — canonicalizing
`join(root, name)` appends the bare component `name` to the canonicalized
root, since `root/name` cannot be a symlink in an empty directory — the
zip-slip rejection in `safe_extract` is unreachable: the containment loop
succeeds, and the candidate path is moreover a genuine descendant of the
canonicalized root. -/
theorem validated_name_no_path_escape (realp : String → String)
    (root : String) (item : ZipInfo)
    (hs : pyCharIn '/' item.filename = false)
    (hb : pyCharIn '\\' item.filename = false)
    (hcanon : realp (pyJoin root item.filename) =
      realp root ++ "/" ++ item.filename) :
    safe_extract_check realp root [item] = .ok () ∧
    pathUnder (realp root) (realp (pyJoin root item.filename)) = true := by
  have hsw : pyStartsWith (realp (pyJoin root item.filename)) (realp root) = true := by
    rw [hcanon]
    simp only [pyStartsWith, String.data_append]
    rw [List.append_assoc]
    exact isPrefixOf_self_append _ _
  constructor
  · rw [safe_extract_check, hsw]
    rfl
  · rw [pathUnder, hcanon]
    have hpre : ((realp root ++ "/").data).isPrefixOf
        (realp root ++ "/" ++ item.filename).data = true := by
      simp only [String.data_append]
      exact isPrefixOf_self_append _ _
    rw [hpre]
    simp

/-- C10 witness: on the symlink-free filesystem with root `/tmp/extract`
and the validated bare name `book.fb2`. -/
theorem validated_name_no_path_escape_witness :
    safe_extract_check normpath "/tmp/extract" [⟨"book.fb2", 1, 1⟩] = .ok () ∧
    pathUnder (normpath "/tmp/extract")
      (normpath (pyJoin "/tmp/extract" "book.fb2")) = true :=
  validated_name_no_path_escape normpath "/tmp/extract" ⟨"book.fb2", 1, 1⟩
    (by decide) (by decide) (by decide)

/-- C1: the extractor enforces no running byte counter on the decompressed
stream, and no failure of the pipeline carries the `DecompressionMismatch`
classification.  Concretely: a validated single-entry archive declaring
100 uncompressed bytes whose data stream actually decompresses to
1000100 bytes — exceeding the declared size by 1000000 bytes, more than
any small slack bound — is extracted to completion (CPython's `zipfile`
silently truncates the stream at the declared size) instead of aborting;
and every error the pipeline can return is one of the seven source
messages, none of which classifies as `DecompressionMismatch`. -/
theorem pipeline_no_decompression_mismatch_guard :
    (List.replicate 1000100 (0 : Nat)).length = 100 + 1000000 ∧
    exceptIsOk (process_archive normpath "/tmp/extract"
      [⟨⟨"book.fb2", 100, 10⟩, List.replicate 1000100 0⟩]) = true ∧
    (∀ (realp : String → String) (path : String) (entries : List ZipEntry)
      (m : String), process_archive realp path entries = .error m →
      classify m ≠ .decompressionMismatch) := by
  refine ⟨by rw [List.length_replicate], by rfl, ?_⟩
  intro realp path entries m h
  rw [process_archive] at h
  cases hv : validate_archive (entries.map (fun e => e.info)) with
  | error mv =>
    rw [hv] at h
    have hm := (Except.error.inj h).symm
    subst hm
    rcases validate_archive_error_messages _ _ hv with
      h1 | h1 | h1 | h1 | h1 | h1 <;> subst h1 <;> decide
  | ok item =>
    rw [hv] at h
    cases hse : safe_extract_check realp path (entries.map (fun e => e.info)) with
    | error ms =>
      rw [hse] at h
      have hm := (Except.error.inj h).symm
      subst hm
      rw [safe_extract_check_error realp path _ _ hse]
      decide
    | ok u =>
      rw [hse] at h
      cases h

/-- C1 witness: the classification lemma applied at a concrete failing
pipeline run (the empty archive). -/
theorem pipeline_no_decompression_mismatch_guard_witness :
    classify wrongCountMsg ≠ FailureClass.decompressionMismatch :=
  pipeline_no_decompression_mismatch_guard.2.2 normpath "/tmp/extract" []
    wrongCountMsg (by rfl)

/-- C7: metadata extraction never propagates an error to its caller — it
is a total function into `BookMetadata` over every payload size and every
parse outcome (empty input, non-XML input and entity-bearing input all
surface here as a parse result or a parse error).  An oversized payload
skips parsing and yields both fields absent, any parse error degrades to
both fields absent, and the parser configuration the source builds
disables external-entity resolution and network access. -/
theorem metadata_extraction_total_and_defensive :
    (∀ (size : Nat) (parsed : Except String XElem),
      ALLOWED_FILE_SIZE < size →
      extract_fb2_metadata size parsed = ⟨none, none⟩) ∧
    (∀ (size : Nat) (err : String),
      extract_fb2_metadata size (.error err) = ⟨none, none⟩) ∧
    fb2ParserConfig.resolve_entities = false ∧
    fb2ParserConfig.no_network = true ∧
    fb2ParserConfig.recover = true := by
  refine ⟨?_, ?_, rfl, rfl, rfl⟩
  · intro size parsed hsize
    rw [extract_fb2_metadata.eq_def, if_pos hsize]
  · intro size err
    rw [extract_fb2_metadata.eq_def]
    split
    · rfl
    · rfl

/-- C7 witness: empty metadata on a concrete oversized payload and on a
concrete parse failure. -/
theorem metadata_extraction_total_and_defensive_witness :
    extract_fb2_metadata 33554433 (.error "not xml") = ⟨none, none⟩ ∧
    extract_fb2_metadata 0 (.error "empty document") = ⟨none, none⟩ :=
  ⟨metadata_extraction_total_and_defensive.1 33554433 (.error "not xml")
      (by decide),
   metadata_extraction_total_and_defensive.2.1 0 "empty document"⟩

/-- C8: for a payload within the size bound that parses, the title is
determined by the first `book-title` element (in the FB2 namespace) of the
flattened document-order listing of the tree — first match wins — with its
text sliced to the first 255 code points; when no such element exists or
its text is absent or empty, the title is absent; and every produced title
has length at most 255. -/
theorem metadata_title_first_match_truncated (size : Nat) (root : XElem)
    (hsize : ¬ ALLOWED_FILE_SIZE < size) :
    (extract_fb2_metadata size (.ok root)).title =
      (match (descF root.children).find?
          (fun e => e.ns == fbNS && e.tag == "book-title") with
        | some e =>
          if truthy e.text then some (pyTake (e.text.getD "") 255) else none
        | none => none) ∧
    (∀ t, (extract_fb2_metadata size (.ok root)).title = some t →
      t.length ≤ 255) := by
  have hdef : (extract_fb2_metadata size (.ok root)).title =
      (match findF fbNS "book-title" root.children with
        | some e =>
          if truthy e.text then some (pyTake (e.text.getD "") 255) else none
        | none => none) := by
    rw [extract_fb2_metadata.eq_def, if_neg hsize]
  constructor
  · rw [hdef, findF_eq_find?]
  · intro t ht
    rw [hdef] at ht
    rcases hfd : findF fbNS "book-title" root.children with _ | e
    · rw [hfd] at ht
      simp at ht
    · rw [hfd] at ht
      rcases htr : truthy e.text with _ | _
      · simp [htr] at ht
      · simp [htr] at ht
        rw [← ht]
        show (List.take 255 (e.text.getD "").data).length ≤ 255
        simp [List.length_take]

/-- C8 witness: a concrete document whose second-level `book-title`
is found in document order. -/
theorem metadata_title_first_match_truncated_witness :
    (extract_fb2_metadata 0 (.ok (.node fbNS "FictionBook" none
      (.cons (.node fbNS "description" none
        (.cons (.node fbNS "book-title" (some "War and Peace") .nil)
          .nil)) .nil)))).title =
      (match (descF (XElem.node fbNS "FictionBook" none
          (.cons (.node fbNS "description" none
            (.cons (.node fbNS "book-title" (some "War and Peace") .nil)
              .nil)) .nil)).children).find?
          (fun e => e.ns == fbNS && e.tag == "book-title") with
        | some e =>
          if truthy e.text then some (pyTake (e.text.getD "") 255) else none
        | none => none) :=
  (metadata_title_first_match_truncated 0 (.node fbNS "FictionBook" none
      (.cons (.node fbNS "description" none
        (.cons (.node fbNS "book-title" (some "War and Peace") .nil)
          .nil)) .nil))
    (by decide)).1

/-- C9: the author is composed from the `first-name` and `last-name`
descendants of the first `author` element in document order: both truthy →
first, a single space, then last; only last truthy → the last name; only
first truthy → the first name; neither → the author field is absent; and
when no author element exists the field is likewise absent. -/
theorem metadata_author_composition (size : Nat) (root : XElem)
    (hsize : ¬ ALLOWED_FILE_SIZE < size) :
    (findF fbNS "author" root.children = none →
      (extract_fb2_metadata size (.ok root)).author = none) ∧
    (∀ a, findF fbNS "author" root.children = some a →
      (truthy (findtextDesc fbNS "first-name" a) = true →
        truthy (findtextDesc fbNS "last-name" a) = true →
        (extract_fb2_metadata size (.ok root)).author =
          some ((findtextDesc fbNS "first-name" a).getD "" ++ " " ++
            (findtextDesc fbNS "last-name" a).getD "")) ∧
      (truthy (findtextDesc fbNS "first-name" a) = false →
        truthy (findtextDesc fbNS "last-name" a) = true →
        (extract_fb2_metadata size (.ok root)).author =
          findtextDesc fbNS "last-name" a) ∧
      (truthy (findtextDesc fbNS "first-name" a) = true →
        truthy (findtextDesc fbNS "last-name" a) = false →
        (extract_fb2_metadata size (.ok root)).author =
          findtextDesc fbNS "first-name" a) ∧
      (truthy (findtextDesc fbNS "first-name" a) = false →
        truthy (findtextDesc fbNS "last-name" a) = false →
        (extract_fb2_metadata size (.ok root)).author = none)) := by
  have hdef : ∀ r, findF fbNS "author" root.children = r →
      (extract_fb2_metadata size (.ok root)).author =
      (match r with
        | some a =>
          if truthy (findtextDesc fbNS "first-name" a) &&
              truthy (findtextDesc fbNS "last-name" a) then
            some ((findtextDesc fbNS "first-name" a).getD "" ++ " " ++
              (findtextDesc fbNS "last-name" a).getD "")
          else if truthy (findtextDesc fbNS "last-name" a) then
            findtextDesc fbNS "last-name" a
          else if truthy (findtextDesc fbNS "first-name" a) then
            findtextDesc fbNS "first-name" a
          else none
        | none => none) := by
    intro r hr
    rw [extract_fb2_metadata.eq_def, if_neg hsize]
    dsimp only
    rw [hr]
  constructor
  · intro h
    rw [hdef none h]
  · intro a ha
    refine ⟨?_, ?_, ?_, ?_⟩ <;> intro h1 h2 <;>
      rw [hdef (some a) ha] <;> simp [h1, h2]

/-- C9 witness: a concrete author element carrying both a first and a last
name composes them with a single space. -/
theorem metadata_author_composition_witness :
    (extract_fb2_metadata 0 (.ok (.node fbNS "FictionBook" none
      (.cons (.node fbNS "author" none
        (.cons (.node fbNS "first-name" (some "Leo") .nil)
          (.cons (.node fbNS "last-name" (some "Tolstoy") .nil)
            .nil))) .nil)))).author =
      some ((findtextDesc fbNS "first-name"
          (.node fbNS "author" none
            (.cons (.node fbNS "first-name" (some "Leo") .nil)
              (.cons (.node fbNS "last-name" (some "Tolstoy") .nil)
                .nil)))).getD "" ++ " " ++
        (findtextDesc fbNS "last-name"
          (.node fbNS "author" none
            (.cons (.node fbNS "first-name" (some "Leo") .nil)
              (.cons (.node fbNS "last-name" (some "Tolstoy") .nil)
                .nil)))).getD "") :=
  by
  have h := (metadata_author_composition 0 (XElem.node fbNS "FictionBook" none
      (.cons (.node fbNS "author" none
        (.cons (.node fbNS "first-name" (some "Leo") .nil)
          (.cons (.node fbNS "last-name" (some "Tolstoy") .nil)
            .nil))) .nil)) (by decide)).2
    (XElem.node fbNS "author" none
      (.cons (.node fbNS "first-name" (some "Leo") .nil)
        (.cons (.node fbNS "last-name" (some "Tolstoy") .nil)
          .nil))) (by rfl)
  exact h.1 (by rfl) (by rfl)

end UnzipFb2
